import Mathlib

/-!
Shallow embedding of the incremental-processing core of `youtube_saver`
(`src/main.py`, `src/utils.py`).

Filenames and ids are modelled as `List Char`; Python substring tests
(`id in x`) become `List.IsInfix` via the notation `<:+:`, and
`str.endswith(".txt")` becomes suffix via `<:+`.  A destination-directory
listing (`os.listdir`) is a `List (List Char)` of filenames.  Raised Python
exceptions become `Except` errors; exception objects are opaque `Nat` tags.
The Python exception message text is not modelled.
-/

/-- Decidable equality of `Except` results (needed to evaluate the embedded
fallible operations on concrete inputs). -/
instance {ε α : Type} [DecidableEq ε] [DecidableEq α] : DecidableEq (Except ε α) := fun x y =>
  match x, y with
  | .ok a, .ok b => decidable_of_iff (a = b) (by simp)
  | .ok _, .error _ => isFalse (by simp)
  | .error _, .ok _ => isFalse (by simp)
  | .error e, .error f => decidable_of_iff (e = f) (by simp)

namespace YTS

/-- A filename (or id, or any Python `str` of the state-tracking core). -/
abbrev FName := List Char

/-- The `State` enumeration from `main.py` lines 91-94. -/
inductive State where
  | Unprocessed
  | OK
  | Failed
deriving DecidableEq, Repr

/-- Result of `utils.parseDateString` (a `datetime.date`); calendar-range
validation performed by `datetime.date` is not modelled (no claim uses it). -/
structure DateYMD where
  year : Nat
  month : Nat
  day : Nat
deriving DecidableEq, Repr

/-- The `Entry` dataclass from `main.py` lines 96-107.  `duration` is
`Option Int`: `none` models Python `None`, `some v` a numeric duration
(an absent `duration` key is mapped to `0` by the triage lambda).
`raw` stands for the opaque `raw_data` metadata dict. -/
structure Entry where
  id : FName
  duration : Option Int
  title : FName
  uploader : FName := []
  url : FName := []
  filesize : Option Int := none
  uploadDate : Option DateYMD := none
  raw : Nat := 0
  state : Option State := none
deriving DecidableEq, Repr

/-- A failure-marker record as written by `setStatusEx` (`main.py` 119-134):
status tag, the entry's id and title, one entry per caught exception, and the
raw metadata blob that was serialized into the body. -/
structure Marker where
  id : FName
  title : FName
  status : FName
  exceptions : List Nat
  raw : Nat
deriving DecidableEq, Repr

/-- The status tag `"failed"`. -/
def failedTag : FName := "failed".toList

/-- The status tag `"invalid-duration"`. -/
def invalidDurationTag : FName := "invalid-duration".toList

/-- The marker-file extension `".txt"`. -/
def txtExt : FName := ".txt".toList

/-- The marker filename built by `setStatus` (`main.py` line 111):
`[{status}] - {sanitize_filename(title)} [{id}].txt`.  `san` models the
external `sanitize_filename` collaborator as a black box. -/
def markerFileName (san : FName → FName) (status title id : FName) : FName :=
  ('[' :: status) ++ "] - ".toList ++ san title ++ " [".toList ++ id ++ "]".toList ++ txtExt

/-- Effect of `setStatus` / `setStatusEx` on the destination-directory
listing: `open(path, "w")` creates the marker file, overwriting (hence not
duplicating) an existing file of the same name. -/
def setStatusDir (san : FName → FName) (dir : List FName) (status title id : FName) :
    List FName :=
  if markerFileName san status title id ∈ dir then dir
  else dir ++ [markerFileName san status title id]

/-- The `GetState` operation (`main.py` 136-147): filter the listing for filenames
containing `id` as a substring; zero matches is `Unprocessed`, more than one
raises (`.error`), a single match is `Failed` iff it ends in `".txt"`,
else `OK`. -/
def GetState (dir : List FName) (id : FName) : Except Unit State :=
  match dir.filter (fun x => decide (id <:+: x)) with
  | [] => .ok .Unprocessed
  | [m] => if txtExt <:+ m then .ok .Failed else .ok .OK
  | _ :: _ :: _ => .error ()

/-- The `DeleteFailure` operation (`main.py` 149-157): filter the listing for `".txt"`
filenames containing `id`; no-op on zero matches, raises on more than one,
otherwise `os.remove` deletes the single match (first occurrence in the
listing). -/
def DeleteFailure (dir : List FName) (id : FName) : Except Unit (List FName) :=
  match dir.filter (fun x => decide (txtExt <:+ x) && decide (id <:+: x)) with
  | [] => .ok dir
  | [m] => .ok (dir.erase m)
  | _ :: _ :: _ => .error ()

/-- A shallow-listing metadata dict, as far as triage reads its duration:
whether the `"duration"` key is present, and its value when present
(`none` models the key present with Python value `None`). -/
structure ShallowDict where
  hasDuration : Bool
  durationVal : Option Int
deriving DecidableEq, Repr

/-- The lambda `durationLambda` (`main.py` line 174):
`lambda d: d["duration"] if "duration" in d else 0` — an absent key is
mapped to the number `0`, not to `None`. -/
def durationLambda (d : ShallowDict) : Option Int :=
  if d.hasDuration then d.durationVal else some 0

/-- The sort key of `newEntries.sort(key=lambda x: x.duration or -1)`
(`main.py` line 192).  Python `or` takes the right operand when the left is
falsy, i.e. when `duration` is `None` or `0`. -/
def sortKey (e : Entry) : Int :=
  match e.duration with
  | none => -1
  | some v => if v = 0 then -1 else v

/-- The triage sort of `main.py` line 192: Python's `list.sort` is a stable
comparison sort by the key above, modelled here by (stable) insertion sort
on the key order. -/
def triageSort (l : List Entry) : List Entry :=
  List.insertionSort (fun a b => sortKey a ≤ sortKey b) l

/-- The triage key order is total. -/
instance : IsTotal Entry (fun a b => sortKey a ≤ sortKey b) :=
  ⟨fun a b => le_total (sortKey a) (sortKey b)⟩

/-- The triage key order is transitive. -/
instance : IsTrans Entry (fun a b => sortKey a ≤ sortKey b) :=
  ⟨fun _ _ _ h1 h2 => le_trans h1 h2⟩

/-- Parse a `List Char` of decimal digits, as Python `int` does on the
all-digit strings relevant here (sign/whitespace tolerance of `int` is not
modelled; upstream dates are digit strings). -/
def decDigits? (l : FName) : Option Nat :=
  if l ≠ [] ∧ l.all (fun c => c.isDigit) then
    some (l.foldl (fun n c => n * 10 + (c.toNat - 48)) 0)
  else none

/-- The function `utils.parseDateString` (`utils.py` 23-29): asserts the string has
length 8, then converts slices `[0:4]`, `[4:6]`, `[6:8]` with `int`.
`none` models the raised `AssertionError`/`ValueError`. -/
def parseDateString (s : FName) : Option DateYMD :=
  if s.length = 8 then
    match decDigits? (s.take 4), decDigits? ((s.drop 4).take 2), decDigits? (s.drop 6) with
    | some y, some m, some d => some ⟨y, m, d⟩
    | _, _, _ => none
  else none

/-- The deep-fetch result dict, as far as the enrichment generator reads it:
`filesize_approx` (may be absent: `info.get`), `upload_date`, and the rest of
the dict as an opaque blob. -/
structure Info where
  filesize_approx : Option Int
  upload_date : FName
  raw : Nat
deriving DecidableEq, Repr

/-- Outcome of one `ytdl.extract_info(entry.url, download=False)` call:
either a raised exception (opaque tag) or a full info dict. -/
inductive FetchResult where
  | raises (e : Nat)
  | found (info : Info)
deriving DecidableEq, Repr

/-- Does `__fetchGenerator` yield this entry?  True iff the deep fetch does
not raise and the duration check `entry.duration is None or
entry.duration == -1` (`main.py` line 203) does not fire. -/
def goodEntry (fetch : Entry → FetchResult) (e : Entry) : Bool :=
  match fetch e with
  | .raises _ => false
  | .found _ => !(e.duration = none ∨ e.duration = some (-1) : Bool)

/-- The enriched entry yielded by `__fetchGenerator` (`main.py` 208-212):
filesize estimate, parsed upload date, and raw metadata replaced by the
deep-fetch dict.  (Identity on entries whose fetch raises; unused there.) -/
def enrich (fetch : Entry → FetchResult) (e : Entry) : Entry :=
  match fetch e with
  | .raises _ => e
  | .found info =>
      { e with filesize := info.filesize_approx,
               uploadDate := parseDateString info.upload_date,
               raw := info.raw }

/-- The marker `__fetchGenerator` writes for a non-yielded entry:
`"failed"` with the caught exception on a raised fetch (`main.py` 199-201),
`"invalid-duration"` with no exception on the duration check
(`main.py` 203-206); both carry the previously known raw metadata. -/
def markerOf (fetch : Entry → FetchResult) (e : Entry) : Marker :=
  match fetch e with
  | .raises err => ⟨e.id, e.title, failedTag, [err], e.raw⟩
  | .found _ => ⟨e.id, e.title, invalidDurationTag, [], e.raw⟩

/-- The generator `__fetchGenerator` (`main.py` 194-212) driven to completion over the
triaged entry list: returns the yielded entries and the markers written, in
order.  A raised fetch writes a `"failed"` marker and continues; a `None` or
`-1` duration writes an `"invalid-duration"` marker and continues; otherwise
the entry is enriched and yielded.  `.error` models the only escaping
exception: `parseDateString` failing on a malformed `upload_date`. -/
def fetchGen (fetch : Entry → FetchResult) : List Entry → Except Unit (List Entry × List Marker)
  | [] => .ok ([], [])
  | e :: rest =>
    match fetch e with
    | .raises err =>
        (fetchGen fetch rest).map
          (fun p => (p.1, Marker.mk e.id e.title failedTag [err] e.raw :: p.2))
    | .found info =>
        if e.duration = none ∨ e.duration = some (-1) then
          (fetchGen fetch rest).map
            (fun p => (p.1, Marker.mk e.id e.title invalidDurationTag [] e.raw :: p.2))
        else
          match parseDateString info.upload_date with
          | none => .error ()
          | some d =>
              (fetchGen fetch rest).map
                (fun p =>
                  ({ e with filesize := info.filesize_approx,
                            uploadDate := some d,
                            raw := info.raw } :: p.1, p.2))

/-- Outcome of one `ytdl.download([url])` call: a completion signal
(`0` is success) or a raised exception (opaque tag). -/
inductive CallResult where
  | signal (n : Int)
  | raised (e : Nat)
deriving DecidableEq, Repr

/-- Outcome of one `downloadUrl(ytdl, url)` call: returned `True`,
returned `False`, or propagated a raised exception. -/
inductive DUResult where
  | ok
  | failed
  | raised (e : Nat)
deriving DecidableEq, Repr

/-- The retry loop of `downloadUrl` (`main.py` 268-275): `k` is the index of
the next engine invocation, the second argument is `retriesLeft`.  Returns
`True` on the first `0` signal, `False` once `retriesLeft` reaches `0`,
and propagates a raised exception (uncaught in `downloadUrl`). -/
def dlGo (engine : Nat → CallResult) : Nat → Nat → DUResult
  | _, 0 => .failed
  | k, r + 1 =>
    match engine k with
    | .raised e => .raised e
    | .signal n => if n = 0 then .ok else dlGo engine (k + 1) r

/-- The function `downloadUrl` (`main.py` 268-275): the retry loop started with
`retriesLeft = 5`. -/
def downloadUrl (engine : Nat → CallResult) : DUResult :=
  dlGo engine 0 5

/-- Number of `ytdl.download` invocations `downloadUrl` performs. -/
def dlCalls (engine : Nat → CallResult) : Nat → Nat → Nat
  | _, 0 => 0
  | k, r + 1 =>
    match engine k with
    | .raised _ => 1
    | .signal n => if n = 0 then 1 else 1 + dlCalls engine (k + 1) r

/-- Number of engine invocations of a full `downloadUrl` call. -/
def downloadUrlCalls (engine : Nat → CallResult) : Nat :=
  dlCalls engine 0 5

/-- An engine configuration that never raises and answers the `k`-th
invocation with completion signal `signals k`. -/
def engineOfSignals (signals : Nat → Int) : Nat → CallResult :=
  fun k => .signal (signals k)

/-- One extraction-engine configuration (one `ytdl` of the `ytdls` list), as
a black box: its invocation outcomes, and the scratch-directory content its
`downloadUrl` call leaves behind when it returns without raising (scratch is
empty when the call starts). -/
structure ConfigBehavior where
  engine : Nat → CallResult
  filesLeft : List FName

/-- State of the configuration loop of `download` (`main.py` 297-309):
the `success` flag, the accumulated `exceptions` list, the scratch-directory
listing, whether the loop has executed `break`, and how many configurations
have been invoked. -/
structure LoopState where
  success : Bool
  exceptions : List Nat
  scratch : List FName
  broke : Bool
  attempted : Nat
deriving DecidableEq, Repr

/-- One iteration of `for ytdl in ytdls` (`main.py` 303-309): after `break`
nothing happens; otherwise `downloadUrl` runs — on a normal return the result
is assigned to `success`, the loop breaks (the `break` on line 306 is
unconditional), and scratch holds what the engine left; on a raised exception
it is appended to `exceptions` and `clearDir` empties scratch (deletions are
modelled as succeeding; `utils.clearDir` is best effort). -/
def configStep (st : LoopState) (c : ConfigBehavior) : LoopState :=
  if st.broke then st
  else
    match downloadUrl c.engine with
    | .ok =>
        { st with success := true, scratch := c.filesLeft, broke := true,
                  attempted := st.attempted + 1 }
    | .failed =>
        { st with success := false, scratch := c.filesLeft, broke := true,
                  attempted := st.attempted + 1 }
    | .raised e =>
        { st with exceptions := st.exceptions ++ [e], scratch := [],
                  attempted := st.attempted + 1 }

/-- The loop state before the first configuration: `success = False`,
no exceptions, scratch empty (cleared before each entry). -/
def initState : LoopState := ⟨false, [], [], false, 0⟩

/-- The whole `for ytdl in ytdls` loop for one entry. -/
def configLoop (cfgs : List ConfigBehavior) : LoopState :=
  cfgs.foldl configStep initState

/-- The exception a configuration's `downloadUrl` call raises, if any. -/
def raisedOf (c : ConfigBehavior) : Option Nat :=
  match downloadUrl c.engine with
  | .raised e => some e
  | _ => none

/-- Index of the last `'.'` of a filename, if any. -/
def lastDotIndex (s : FName) : Option Nat :=
  match List.findIdx? (fun c => c == '.') s.reverse with
  | none => none
  | some i => some (s.length - 1 - i)

/-- Root of `os.path.splitext` on a bare filename: cut at the last dot,
except when every character before that dot is itself a dot (Python treats
leading dots as part of the root, e.g. `".bashrc"` has no extension). -/
def splitextRoot (s : FName) : FName :=
  match lastDotIndex s with
  | none => s
  | some k => if (s.take k).any (fun c => c != '.') then s.take k else s

/-- The extension `".ogg"`. -/
def oggExt : FName := ".ogg".toList

/-- The extension `".opus"`. -/
def opusExt : FName := ".opus".toList

/-- The success tail of `download` (`main.py` 313-324): list the scratch
directory, assert exactly one file (`.error` models the fatal
`AssertionError`), in audio-only mode rename its extension to `".ogg"` via
`splitext`, and `shutil.move` it into the destination listing — the source
file leaves scratch, so scratch ends empty. -/
def successPath (audioOnly : Bool) (scratch dest : List FName) :
    Except Unit (List FName × List FName) :=
  match scratch with
  | [file] =>
      let newFile := if audioOnly then splitextRoot file ++ oggExt else file
      .ok ([], dest ++ [newFile])
  | _ => .error ()

/-- Per-entry body of the `for entry in result.NewEntries` loop
(`main.py` 297-327), after the configuration loop: on `success`, the
success tail above; otherwise `clearDir` empties scratch and `setStatusEx`
writes a `"failed"` marker carrying the collected exceptions and the entry's
raw metadata, and nothing is moved to the destination.  Returns the final
scratch listing, destination listing, and the marker written, if any. -/
def processEntry (cfgs : List ConfigBehavior) (audioOnly : Bool) (entry : Entry)
    (dest : List FName) : Except Unit (List FName × List FName × Option Marker) :=
  let st := configLoop cfgs
  if st.success then
    match successPath audioOnly st.scratch dest with
    | .ok (s, d) => .ok (s, d, none)
    | .error e => .error e
  else
    .ok ([], dest, some ⟨entry.id, entry.title, failedTag, st.exceptions, entry.raw⟩)

/-! ### Concrete example inputs used by the theorems below -/

/-- A configuration whose engine always answers a non-zero signal (its
`downloadUrl` exhausts the 5 retries and returns `False`), leaving partial
output in scratch. -/
def c1cexA : ConfigBehavior := ⟨engineOfSignals (fun _ => 1), ["video.part".toList]⟩

/-- A configuration whose engine immediately succeeds. -/
def c1cexB : ConfigBehavior := ⟨engineOfSignals (fun _ => 0), ["video.mkv".toList]⟩

/-- A configuration whose engine raises on every invocation. -/
def c1wRaise : ConfigBehavior := ⟨fun _ => .raised 3, []⟩

/-- A configuration whose engine immediately succeeds. -/
def c1wOk : ConfigBehavior := ⟨engineOfSignals (fun _ => 0), ["video.mkv".toList]⟩

/-- Example destination listing: one failure marker and one media file. -/
def c2dir : List FName := ["[failed] - song [vid1].txt".toList, "clip [vid2].mkv".toList]

/-- Example triaged entries for the enrichment stream. -/
def c3e1 : Entry := { id := "a".toList, duration := some 10, title := "t1".toList, raw := 1 }

/-- Second example entry; its deep fetch raises. -/
def c3e2 : Entry := { id := "b".toList, duration := some 20, title := "t2".toList, raw := 2 }

/-- Third example entry. -/
def c3e3 : Entry := { id := "c".toList, duration := some 30, title := "t3".toList, raw := 3 }

/-- Example deep-fetch behavior: raises exception `7` for id `"b"`, succeeds
with a well-formed info dict otherwise. -/
def c3fetch : Entry → FetchResult := fun e =>
  if e.id = "b".toList then .raises 7
  else .found ⟨some 9, "20230115".toList, 77⟩

/-- An entry whose duration was absent from the shallow listing, hence
mapped to `0` by `durationLambda`. -/
def c4entry : Entry := { id := "z".toList, duration := some 0, title := ("t".toList), raw := 5 }

/-- A deep fetch that always succeeds with a well-formed info dict. -/
def c4fetch : Entry → FetchResult := fun _ => .found ⟨some 9, "20230115".toList, 77⟩

/-- An entry whose duration is Python `None`. -/
def c4wEntry : Entry := { id := "w".toList, duration := none, title := "tw".toList, raw := 6 }

/-- Two configurations whose engines raise on every invocation
(exceptions `11` and `12`). -/
def c6cfgA : ConfigBehavior := ⟨fun _ => .raised 11, []⟩

/-- Second always-raising configuration. -/
def c6cfgB : ConfigBehavior := ⟨fun _ => .raised 12, []⟩

/-- Example entry reaching the orchestrator. -/
def c6entry : Entry := { id := "m".toList, duration := some 4, title := "tm".toList, raw := 8 }

/-- Triage example entry with duration 30. -/
def c7e30 : Entry := { id := "a".toList, duration := some 30, title := [] }

/-- Triage example entry with duration `None`. -/
def c7eNone : Entry := { id := "b".toList, duration := none, title := [] }

/-- Triage example entry with duration 10. -/
def c7e10 : Entry := { id := "c".toList, duration := some 10, title := [] }

/-- Completion signals: zero on the third invocation, non-zero before. -/
def c8signals : Nat → Int := fun k => if k = 2 then 0 else 1

/-- Completion signals that are never zero. -/
def c8signalsBad : Nat → Int := fun _ => 1

/-- Destination listing holding exactly one failure marker for id `"vid"`. -/
def c9dir : List FName := ["[failed] - t [vid].txt".toList, "other.mkv".toList]

/-- Destination listing holding two failure markers for id `"vid"`. -/
def c9dir2 : List FName := ["[failed] - t [vid].txt".toList, "[failed] - u [vid].txt".toList]

/-- Destination listing with no filename containing id `"vid9"`. -/
def c10dir : List FName := ["other.mkv".toList]

/-- The sanitizer modelled as the identity for the example. -/
def c10san : FName → FName := fun t => t

/-! ### Helper lemmas -/

/-- If filtering keeps exactly one element, erasing that element leaves
nothing that passes the filter. -/
theorem filter_erase_of_filter_eq_singleton {α : Type} [BEq α] [LawfulBEq α] (p : α → Bool)
    (l : List α) (m : α) (h : l.filter p = [m]) : (l.erase m).filter p = [] := by
  induction l with
  | nil => simp at h
  | cons a t ih =>
    by_cases hpa : p a = true
    · rw [List.filter_cons, if_pos hpa] at h
      obtain ⟨rfl, ht⟩ : a = m ∧ t.filter p = [] := by simpa using h
      rw [List.erase_cons_head]
      exact ht
    · rw [List.filter_cons, if_neg hpa] at h
      have hm : m ∈ t.filter p := h ▸ List.mem_cons_self m []
      have hpm : p m = true := (List.mem_filter.mp hm).2
      have hne : ¬ (a == m) = true := by
        simp only [beq_iff_eq]
        rintro rfl
        exact hpa hpm
      rw [List.erase_cons_tail hne, List.filter_cons, if_neg hpa]
      exact ih h

/-- Applying `filterMap` with an everywhere-`some` function preserves length. -/
theorem length_filterMap_of_isSome {α β : Type} (f : α → Option β) (l : List α)
    (h : ∀ a ∈ l, (f a).isSome = true) : (l.filterMap f).length = l.length := by
  induction l with
  | nil => rfl
  | cons a t ih =>
    obtain ⟨b, hb⟩ := Option.isSome_iff_exists.mp (h a (by simp))
    rw [List.filterMap_cons, hb]
    simpa using ih (fun x hx => h x (by simp [hx]))

/-- Once the loop has broken, further configurations change nothing. -/
theorem foldl_configStep_broke (l : List ConfigBehavior) (st : LoopState)
    (h : st.broke = true) : List.foldl configStep st l = st := by
  induction l with
  | nil => rfl
  | cons c t ih => rw [List.foldl_cons, configStep, if_pos h]; exact ih

/-- Folding the configuration step over a list of configurations that all
raise: every exception is appended in order, scratch stays cleared, the loop
never breaks, and every configuration is invoked. -/
theorem foldl_configStep_of_all_raised (cfgs : List ConfigBehavior) :
    ∀ (exns : List Nat) (n : Nat), (∀ c ∈ cfgs, (raisedOf c).isSome = true) →
    List.foldl configStep ⟨false, exns, [], false, n⟩ cfgs =
      ⟨false, exns ++ cfgs.filterMap raisedOf, [], false, n + cfgs.length⟩ := by
  induction cfgs with
  | nil => intro exns n _; simp
  | cons c t ih =>
    intro exns n h
    have hc := h c (by simp)
    rcases hdl : downloadUrl c.engine with _ | _ | e
    · rw [raisedOf, hdl] at hc; simp at hc
    · rw [raisedOf, hdl] at hc; simp at hc
    · have hro : raisedOf c = some e := by rw [raisedOf, hdl]
      have hstep : configStep ⟨false, exns, [], false, n⟩ c =
          ⟨false, exns ++ [e], [], false, n + 1⟩ := by
        simp [configStep, hdl]
      rw [List.foldl_cons, hstep, ih (exns ++ [e]) (n + 1) (fun x hx => h x (by simp [hx]))]
      simp only [List.filterMap_cons, hro, List.length_cons, List.append_assoc,
        List.singleton_append, LoopState.mk.injEq, true_and, and_true]
      omega

/-- Characterization of the enrichment generator: when every successful
fetch carries a well-formed upload date, the stream completes and returns
exactly the enriched good entries (in order) and one marker per bad entry
(in order). -/
theorem fetchGen_eq (fetch : Entry → FetchResult) (entries : List Entry)
    (hdates : ∀ e ∈ entries, ∀ info, fetch e = .found info →
      (parseDateString info.upload_date).isSome = true) :
    fetchGen fetch entries =
      .ok ((entries.filter (goodEntry fetch)).map (enrich fetch),
           (entries.filter (fun e => !goodEntry fetch e)).map (markerOf fetch)) := by
  induction entries with
  | nil => rfl
  | cons e t ih =>
    have ht := ih (fun x hx info hfi => hdates x (by simp [hx]) info hfi)
    rcases hf : fetch e with err | info
    · simp [fetchGen, hf, ht, goodEntry, markerOf, Except.map]
    · by_cases hdur : e.duration = none ∨ e.duration = some (-1)
      · simp [fetchGen, hf, ht, hdur, goodEntry, markerOf, Except.map]
      · obtain ⟨d, hd⟩ := Option.isSome_iff_exists.mp (hdates e (by simp) info hf)
        simp [fetchGen, hf, ht, hdur, hd, goodEntry, enrich, Except.map]

/-- If exactly the `k`-th element fails the filter and all others pass,
filtering equals removing the `k`-th element. -/
theorem filter_eq_eraseIdx {α : Type} (p : α → Bool) :
    ∀ (l : List α) (k : Nat) (hk : k < l.length),
      p (l.get ⟨k, hk⟩) = false →
      (∀ j (hj : j < l.length), j ≠ k → p (l.get ⟨j, hj⟩) = true) →
      l.filter p = l.eraseIdx k
  | [], k, hk => by simp at hk
  | a :: t, 0, hk => by
    intro hbad hgood
    rw [List.filter_cons, if_neg (by simpa using hbad), List.eraseIdx_cons_zero]
    refine List.filter_eq_self.mpr (fun x hx => ?_)
    obtain ⟨⟨j, hj⟩, rfl⟩ := List.mem_iff_get.mp hx
    exact hgood (j + 1) (by simpa using Nat.succ_lt_succ hj) (by omega)
  | a :: t, k + 1, hk => by
    intro hbad hgood
    have hpa : p a = true := hgood 0 (by simp) (by omega)
    rw [List.filter_cons, if_pos hpa, List.eraseIdx_cons_succ]
    have := filter_eq_eraseIdx p t k (by simpa using hk) (by simpa using hbad)
      (fun j hj hne => by
        simpa using hgood (j + 1) (by simpa using Nat.succ_lt_succ hj) (by omega))
    rw [this]

/-- The last dot of `base ++ '.' :: tail` with a dot-free `tail` sits right
after `base`. -/
theorem lastDotIndex_append_dot_tail (base tail : FName)
    (h : tail.all (fun c => c != '.') = true) :
    lastDotIndex (base ++ '.' :: tail) = some base.length := by
  have hrev : (base ++ '.' :: tail).reverse = tail.reverse ++ '.' :: base.reverse := by
    simp
  have hnone : List.findIdx? (fun c => c == '.') tail.reverse = none := by
    refine List.findIdx?_eq_none_iff.mpr (fun x hx => ?_)
    have hx' := List.all_eq_true.mp h x (List.mem_reverse.mp hx)
    simp only [bne_iff_ne, ne_eq, decide_not] at hx'
    simp [hx']
  have hfind : List.findIdx? (fun c => c == '.') (base ++ '.' :: tail).reverse =
      some tail.length := by
    rw [hrev, List.findIdx?_append, hnone]
    simp [List.findIdx?_cons]
  rw [lastDotIndex, hfind]
  have hlen : (base ++ '.' :: tail).length = base.length + tail.length + 1 := by
    simp; omega
  have hsub : (base ++ '.' :: tail).length - 1 - tail.length = base.length := by
    rw [hlen]; omega
  simp [hsub]

/-- The `os.path.splitext` root of `base ++ ".opus"`, for a `base` that is not
all dots: the `".opus"` extension is cut off. -/
theorem splitextRoot_opus (base : FName) (h : base.any (fun c => c != '.') = true) :
    splitextRoot (base ++ opusExt) = base := by
  have hsplit : base ++ opusExt = base ++ '.' :: ("opus".toList) := rfl
  rw [hsplit, splitextRoot, lastDotIndex_append_dot_tail base ("opus".toList) (by decide)]
  have htake : (base ++ '.' :: ("opus".toList)).take base.length = base :=
    List.take_left base ('.' :: ("opus".toList))
  simp [htake, h]

/-! ### Claim theorems -/

/-- C2: `GetState` returns `OK` (the spec's `Succeeded`) when exactly one
filename contains the id and it is a non-marker file, `Failed` when the
single match ends in `".txt"`, `Unprocessed` when no filename contains the
id, and raises (an `InconsistentState` error) when two or more filenames
contain the id. -/
theorem c2_GetState_classification (dir : List FName) (id : FName) :
    (dir.filter (fun x => decide (id <:+: x)) = [] → GetState dir id = .ok .Unprocessed) ∧
    (∀ m, dir.filter (fun x => decide (id <:+: x)) = [m] → ¬ txtExt <:+ m →
        GetState dir id = .ok .OK) ∧
    (∀ m, dir.filter (fun x => decide (id <:+: x)) = [m] → txtExt <:+ m →
        GetState dir id = .ok .Failed) ∧
    (2 ≤ (dir.filter (fun x => decide (id <:+: x))).length →
        GetState dir id = .error ()) := by
  refine ⟨?_, ?_, ?_, ?_⟩
  · intro h; rw [GetState, h]
  · intro m h hm; rw [GetState, h]; simp [hm]
  · intro m h hm; rw [GetState, h]; simp [hm]
  · intro h
    rcases hf : dir.filter (fun x => decide (id <:+: x)) with _ | ⟨a, _ | ⟨b, t⟩⟩
    · rw [hf] at h; simp at h
    · rw [hf] at h; simp at h
    · rw [GetState, hf]

/-- Witness for C2 on concrete listings: a single `".txt"` match is
`Failed`, a single non-marker match is `OK`, no match is `Unprocessed`, two
matches raise. -/
theorem c2_witness :
    GetState c2dir ("vid1".toList) = .ok .Failed ∧
    GetState c2dir ("vid2".toList) = .ok .OK ∧
    GetState c2dir ("zzz".toList) = .ok .Unprocessed ∧
    GetState c9dir2 ("vid".toList) = .error () :=
  ⟨(c2_GetState_classification c2dir ("vid1".toList)).2.2.1
      ("[failed] - song [vid1].txt".toList) (by decide) (by decide),
   (c2_GetState_classification c2dir ("vid2".toList)).2.1
      ("clip [vid2].mkv".toList) (by decide) (by decide),
   (c2_GetState_classification c2dir ("zzz".toList)).1 (by decide),
   (c2_GetState_classification c9dir2 ("vid".toList)).2.2.2 (by decide)⟩

/-- C9: for an id in state `Failed` (single match, a marker file), after
`DeleteFailure` the marker is absent and `GetState` reports `Unprocessed`;
`DeleteFailure` is a no-op on zero marker matches and raises on two or
more marker matches. -/
theorem c9_DeleteFailure_roundtrip (dir : List FName) (id : FName) :
    (GetState dir id = .ok .Failed →
      ∃ m, dir.filter (fun x => decide (id <:+: x)) = [m] ∧
        DeleteFailure dir id = .ok (dir.erase m) ∧
        m ∉ dir.erase m ∧
        GetState (dir.erase m) id = .ok .Unprocessed) ∧
    (dir.filter (fun x => decide (txtExt <:+ x) && decide (id <:+: x)) = [] →
        DeleteFailure dir id = .ok dir) ∧
    (2 ≤ (dir.filter (fun x => decide (txtExt <:+ x) && decide (id <:+: x))).length →
        DeleteFailure dir id = .error ()) := by
  refine ⟨?_, ?_, ?_⟩
  · intro h
    rcases hf : dir.filter (fun x => decide (id <:+: x)) with _ | ⟨m, _ | ⟨b, t⟩⟩
    · rw [GetState, hf] at h; simp at h
    · by_cases htxt : txtExt <:+ m
      · refine ⟨m, rfl, ?_, ?_, ?_⟩
        · have hff : dir.filter (fun x => decide (txtExt <:+ x) && decide (id <:+: x)) = [m] := by
            rw [← List.filter_filter, hf, List.filter_cons]
            simp [htxt]
          rw [DeleteFailure, hff]
        · intro hmem
          have hidm : decide (id <:+: m) = true := by
            have : m ∈ dir.filter (fun x => decide (id <:+: x)) := by
              rw [hf]; exact List.mem_cons_self m []
            exact (List.mem_filter.mp this).2
          have : m ∈ (dir.erase m).filter (fun x => decide (id <:+: x)) :=
            List.mem_filter.mpr ⟨hmem, hidm⟩
          rw [filter_erase_of_filter_eq_singleton _ dir m hf] at this
          simp at this
        · rw [GetState, filter_erase_of_filter_eq_singleton _ dir m hf]
      · rw [GetState, hf] at h; simp [htxt] at h
    · rw [GetState, hf] at h; simp at h
  · intro h; rw [DeleteFailure, h]
  · intro h
    rcases hf : dir.filter (fun x => decide (txtExt <:+ x) && decide (id <:+: x)) with
      _ | ⟨a, _ | ⟨b, t⟩⟩
    · rw [hf] at h; simp at h
    · rw [hf] at h; simp at h
    · rw [DeleteFailure, hf]

/-- Witness for C9 on concrete listings: delete-then-rescan reports
`Unprocessed`, zero marker matches is a no-op, two marker matches raise. -/
theorem c9_witness :
    (∃ m, c9dir.filter (fun x => decide ("vid".toList <:+: x)) = [m] ∧
        DeleteFailure c9dir ("vid".toList) = .ok (c9dir.erase m) ∧
        m ∉ c9dir.erase m ∧
        GetState (c9dir.erase m) ("vid".toList) = .ok .Unprocessed) ∧
    DeleteFailure c10dir ("vid".toList) = .ok c10dir ∧
    DeleteFailure c9dir2 ("vid".toList) = .error () :=
  ⟨(c9_DeleteFailure_roundtrip c9dir ("vid".toList)).1 (by decide),
   (c9_DeleteFailure_roundtrip c10dir ("vid".toList)).2.1 (by decide),
   (c9_DeleteFailure_roundtrip c9dir2 ("vid".toList)).2.2 (by decide)⟩

/-- C10 (write-then-read consistency): in a listing where no filename
contains the id, after `setStatus` writes a marker exactly one filename
contains the id, every such filename ends in `".txt"`, and `GetState`
returns `Failed`. -/
theorem c10_setStatus_GetState (san : FName → FName) (dir : List FName)
    (status title id : FName) (h : ∀ x ∈ dir, ¬ id <:+: x) :
    ((setStatusDir san dir status title id).filter (fun x => decide (id <:+: x))).length = 1 ∧
    (∀ x ∈ setStatusDir san dir status title id, id <:+: x → txtExt <:+ x) ∧
    GetState (setStatusDir san dir status title id) id = .ok .Failed := by
  have hinf : id <:+: markerFileName san status title id :=
    ⟨('[' :: status) ++ "] - ".toList ++ san title ++ " [".toList,
     "]".toList ++ txtExt, by simp [markerFileName, List.append_assoc]⟩
  have hsuf : txtExt <:+ markerFileName san status title id :=
    ⟨('[' :: status) ++ "] - ".toList ++ san title ++ " [".toList ++ id ++ "]".toList,
     by simp [markerFileName, List.append_assoc]⟩
  have hnot : markerFileName san status title id ∉ dir := fun hm => h _ hm hinf
  have hdir : setStatusDir san dir status title id =
      dir ++ [markerFileName san status title id] := by
    rw [setStatusDir, if_neg hnot]
  have hnil : dir.filter (fun x => decide (id <:+: x)) = [] :=
    List.filter_eq_nil_iff.mpr (fun a ha => by simpa using h a ha)
  have hfil : (setStatusDir san dir status title id).filter (fun x => decide (id <:+: x)) =
      [markerFileName san status title id] := by
    rw [hdir, List.filter_append, hnil]
    simp [hinf]
  refine ⟨by rw [hfil]; rfl, ?_, ?_⟩
  · intro x hx hidx
    rw [hdir] at hx
    rcases List.mem_append.mp hx with hx | hx
    · exact absurd hidx (h x hx)
    · simp only [List.mem_singleton] at hx
      exact hx ▸ hsuf
  · rw [GetState, hfil]
    simp [hsuf]

/-- Witness for C10: writing a `"failed"` marker for id `"vid9"` into a
listing with no match for it yields exactly one match, a `".txt"` one, and
`GetState` then reports `Failed`. -/
theorem c10_witness :
    ((setStatusDir c10san c10dir failedTag ("t".toList) ("vid9".toList)).filter
        (fun x => decide ("vid9".toList <:+: x))).length = 1 ∧
    (∀ x ∈ setStatusDir c10san c10dir failedTag ("t".toList) ("vid9".toList),
        ("vid9".toList) <:+: x → txtExt <:+ x) ∧
    GetState (setStatusDir c10san c10dir failedTag ("t".toList) ("vid9".toList))
        ("vid9".toList) = .ok .Failed :=
  c10_setStatus_GetState c10san c10dir failedTag ("t".toList) ("vid9".toList) (by decide)

/-- C7: the triage sort is a permutation of its input ordered ascending by
the duration sort key, every entry with unknown duration (Python `None`, or
`0` for a key absent from the shallow listing) precedes every entry with
known positive duration, and durations `[30, None, 10]` come out
`[None, 10, 30]`. -/
theorem c7_triage_sort (l : List Entry) :
    (triageSort l).Perm l ∧
    (triageSort l).Pairwise (fun a b => sortKey a ≤ sortKey b) ∧
    (triageSort l).Pairwise (fun a b =>
      (∃ v, a.duration = some v ∧ 0 < v) →
      ¬ (b.duration = none ∨ b.duration = some 0)) ∧
    (triageSort [c7e30, c7eNone, c7e10]).map Entry.duration =
      [none, some 10, some 30] := by
  refine ⟨List.perm_insertionSort _ l, List.sorted_insertionSort _ l, ?_, by decide⟩
  refine (List.sorted_insertionSort _ l).imp ?_
  intro a b hab
  rintro ⟨v, hv, hvpos⟩ hb
  have ha : sortKey a = v := by
    rw [sortKey, hv]
    simp [show ¬ v = 0 by omega]
  have hbk : sortKey b = -1 := by
    rcases hb with hb | hb
    · rw [sortKey, hb]
    · rw [sortKey, hb]; simp
  rw [ha, hbk] at hab
  omega

/-- The loop `dlGo` returns `True` after exactly `i + 1` invocations when the first
zero signal (relative to start index `k`) is at offset `i < retriesLeft`. -/
theorem dlGo_first_zero (signals : Nat → Int) :
    ∀ (r i k : Nat), i < r → signals (k + i) = 0 → (∀ j, j < i → signals (k + j) ≠ 0) →
      dlGo (engineOfSignals signals) k r = .ok ∧
      dlCalls (engineOfSignals signals) k r = i + 1
  | 0, i, k => by intro h; exact absurd h (Nat.not_lt_zero i)
  | r + 1, 0, k => by
    intro _ h0 _
    have hk : signals k = 0 := by simpa using h0
    refine ⟨?_, ?_⟩ <;> simp [dlGo, dlCalls, engineOfSignals, hk]
  | r + 1, i + 1, k => by
    intro hir h0 hmin
    have hk : ¬ signals k = 0 := by simpa using hmin 0 (Nat.succ_pos i)
    have hrec := dlGo_first_zero signals r i (k + 1) (by omega)
      (by rw [show k + 1 + i = k + (i + 1) by omega]; exact h0)
      (fun j hj => by
        rw [show k + 1 + j = k + (j + 1) by omega]
        exact hmin (j + 1) (by omega))
    refine ⟨?_, ?_⟩ <;> simp [dlGo, dlCalls, engineOfSignals, hk, hrec.1, hrec.2]
    omega

/-- The loop `dlGo` returns `False` after exactly `retriesLeft` invocations when no
signal in the retry window is zero. -/
theorem dlGo_all_nonzero (signals : Nat → Int) :
    ∀ (r k : Nat), (∀ j, j < r → signals (k + j) ≠ 0) →
      dlGo (engineOfSignals signals) k r = .failed ∧
      dlCalls (engineOfSignals signals) k r = r
  | 0, k => by intro _; exact ⟨rfl, rfl⟩
  | r + 1, k => by
    intro h
    have hk : ¬ signals k = 0 := by simpa using h 0 (Nat.succ_pos r)
    have hrec := dlGo_all_nonzero signals r (k + 1) (fun j hj => by
      rw [show k + 1 + j = k + (j + 1) by omega]
      exact h (j + 1) (by omega))
    refine ⟨?_, ?_⟩ <;> simp [dlGo, dlCalls, engineOfSignals, hk, hrec.1, hrec.2]
    omega

/-- C8: for one configuration, `downloadUrl` invokes the engine with
immediate retry on every non-zero completion signal, returns `True` at the
first zero signal (having made first-zero-index + 1 invocations), and
returns `False` only after the budget of 5 invocations is exhausted. -/
theorem c8_downloadUrl_retries (signals : Nat → Int) :
    (∀ k, k < 5 → signals k = 0 → (∀ j, j < k → signals j ≠ 0) →
        downloadUrl (engineOfSignals signals) = .ok ∧
        downloadUrlCalls (engineOfSignals signals) = k + 1) ∧
    ((∀ j, j < 5 → signals j ≠ 0) →
        downloadUrl (engineOfSignals signals) = .failed ∧
        downloadUrlCalls (engineOfSignals signals) = 5) := by
  constructor
  · intro k hk h0 hmin
    exact dlGo_first_zero signals 5 k 0 hk (by simpa using h0)
      (fun j hj => by simpa using hmin j hj)
  · intro h
    exact dlGo_all_nonzero signals 5 0 (fun j hj => by simpa using h j hj)

/-- Witness for C8: with signals `[1, 1, 0, ...]` the download succeeds on
the third invocation; with all-ones signals it fails after 5 invocations. -/
theorem c8_witness :
    (downloadUrl (engineOfSignals c8signals) = .ok ∧
     downloadUrlCalls (engineOfSignals c8signals) = 3) ∧
    (downloadUrl (engineOfSignals c8signalsBad) = .failed ∧
     downloadUrlCalls (engineOfSignals c8signalsBad) = 5) :=
  ⟨(c8_downloadUrl_retries c8signals).1 2 (by decide) (by decide)
      (fun j hj => by interval_cases j <;> decide),
   (c8_downloadUrl_retries c8signalsBad).2 (fun j _ => by simp [c8signalsBad])⟩

/-- C1 counterexample: the claim says that when a configuration gives up
after exhausting its retries without success (non-success return signal, no
exception), the next configuration in the ordered list is attempted, and
that the iteration stops at the first configuration reporting overall
success.  On the code this is false: the `break` on `main.py` line 306 runs
after every non-raising `downloadUrl` return.  Concretely, with a first
configuration that returns `False` without raising and a second that would
succeed, only one configuration is attempted and no success is reported. -/
theorem c1_counterexample :
    downloadUrl c1cexA.engine = .failed ∧
    downloadUrl c1cexB.engine = .ok ∧
    (configLoop [c1cexA, c1cexB]).attempted = 1 ∧
    (configLoop [c1cexA, c1cexB]).success = false := by decide

/-- C1 amended: the orchestrator iterates configurations in order and stops
at the first one whose `downloadUrl` call returns without raising, reporting
success exactly when that call returned `True`; the next configuration is
attempted only when the current one raises, each raised exception being
recorded in order. -/
theorem c1_config_iteration (pre : List ConfigBehavior) (c : ConfigBehavior)
    (post : List ConfigBehavior)
    (hpre : ∀ x ∈ pre, (raisedOf x).isSome = true) (hc : raisedOf c = none) :
    (configLoop (pre ++ c :: post)).attempted = pre.length + 1 ∧
    ((configLoop (pre ++ c :: post)).success = true ↔ downloadUrl c.engine = .ok) ∧
    (configLoop (pre ++ c :: post)).exceptions = pre.filterMap raisedOf ∧
    (configLoop (pre ++ c :: post)).scratch = c.filesLeft := by
  have hpre' := foldl_configStep_of_all_raised pre [] 0 hpre
  simp only [List.nil_append, Nat.zero_add] at hpre'
  have hfold : configLoop (pre ++ c :: post) =
      List.foldl configStep
        (configStep ⟨false, pre.filterMap raisedOf, [], false, pre.length⟩ c) post := by
    simp only [configLoop, initState, List.foldl_append, List.foldl_cons]
    rw [hpre']
  rcases hdl : downloadUrl c.engine with _ | _ | e
  · have hstep : configStep ⟨false, pre.filterMap raisedOf, [], false, pre.length⟩ c =
        ⟨true, pre.filterMap raisedOf, c.filesLeft, true, pre.length + 1⟩ := by
      simp [configStep, hdl]
    rw [hfold, hstep, foldl_configStep_broke post _ rfl]
    simp [hdl]
  · have hstep : configStep ⟨false, pre.filterMap raisedOf, [], false, pre.length⟩ c =
        ⟨false, pre.filterMap raisedOf, c.filesLeft, true, pre.length + 1⟩ := by
      simp [configStep, hdl]
    rw [hfold, hstep, foldl_configStep_broke post _ rfl]
    simp [hdl]
  · rw [raisedOf, hdl] at hc
    simp at hc

/-- Witness for the amended C1: one raising configuration followed by a
succeeding one — both are attempted, the exception is recorded, and the
loop stops with the second configuration's result. -/
theorem c1_witness :
    (configLoop [c1wRaise, c1wOk]).attempted = 2 ∧
    ((configLoop [c1wRaise, c1wOk]).success = true ↔ downloadUrl c1wOk.engine = .ok) ∧
    (configLoop [c1wRaise, c1wOk]).exceptions = [3] ∧
    (configLoop [c1wRaise, c1wOk]).scratch = c1wOk.filesLeft :=
  c1_config_iteration [c1wRaise] c1wOk [] (by decide) (by decide)

/-- C5: on the success path, with exactly one file in scratch the file is
moved to the destination (scratch is empty afterwards) under the expected
name — in audio-only mode a `base ++ ".opus"` artifact is relocated as
`base ++ ".ogg"` — and with zero or two-or-more files in scratch the
fatal assertion fires. -/
theorem c5_single_artifact_move (audioOnly : Bool) (scratch dest : List FName) :
    (∀ file, scratch = [file] →
        successPath audioOnly scratch dest =
          .ok ([], dest ++ [if audioOnly then splitextRoot file ++ oggExt else file])) ∧
    (∀ base, base.any (fun c => c != '.') = true →
        successPath true [base ++ opusExt] dest = .ok ([], dest ++ [base ++ oggExt])) ∧
    (scratch.length ≠ 1 → successPath audioOnly scratch dest = .error ()) := by
  refine ⟨?_, ?_, ?_⟩
  · rintro file rfl
    rfl
  · intro base hb
    simp [successPath, splitextRoot_opus base hb]
  · intro h
    rcases scratch with _ | ⟨a, _ | ⟨b, t⟩⟩
    · rfl
    · simp at h
    · rfl

/-- Witness for C5: `"x.opus"` alone in scratch is relocated as `"x.ogg"`;
an empty scratch raises the assertion. -/
theorem c5_witness :
    successPath true ["x.opus".toList] ["d.mkv".toList] =
      .ok ([], ["d.mkv".toList, "x.ogg".toList]) ∧
    successPath true [] ["d.mkv".toList] = .error () :=
  ⟨(c5_single_artifact_move true ["x.opus".toList] ["d.mkv".toList]).2.1
      ("x".toList) (by decide),
   (c5_single_artifact_move true [] ["d.mkv".toList]).2.2 (by decide)⟩

/-- C6: when every configuration's `downloadUrl` raises, each exception is
recorded and scratch is cleared before the next configuration (after every
prefix of the loop, scratch is empty and the exceptions so far are exactly
those raised, in order); after the last configuration one exception per
configuration has been collected, and the entry ends with a `"failed"`
marker carrying all of them together with the raw metadata, empty scratch,
and an unchanged destination listing. -/
theorem c6_exhaustion_writes_marker (cfgs : List ConfigBehavior) (audioOnly : Bool)
    (entry : Entry) (dest : List FName)
    (hr : ∀ c ∈ cfgs, (raisedOf c).isSome = true) :
    (∀ k, k ≤ cfgs.length →
        (configLoop (cfgs.take k)).scratch = [] ∧
        (configLoop (cfgs.take k)).exceptions = (cfgs.take k).filterMap raisedOf) ∧
    (configLoop cfgs).exceptions.length = cfgs.length ∧
    processEntry cfgs audioOnly entry dest =
      .ok ([], dest,
        some ⟨entry.id, entry.title, failedTag, cfgs.filterMap raisedOf, entry.raw⟩) := by
  have hmain := foldl_configStep_of_all_raised cfgs [] 0 hr
  simp only [List.nil_append, Nat.zero_add] at hmain
  have hloop : configLoop cfgs = ⟨false, cfgs.filterMap raisedOf, [], false, cfgs.length⟩ := by
    simp only [configLoop, initState]
    exact hmain
  refine ⟨?_, ?_, ?_⟩
  · intro k _
    have htk := foldl_configStep_of_all_raised (cfgs.take k) [] 0
      (fun c hc => hr c (List.mem_of_mem_take hc))
    simp only [List.nil_append, Nat.zero_add] at htk
    have : configLoop (cfgs.take k) =
        ⟨false, (cfgs.take k).filterMap raisedOf, [], false, (cfgs.take k).length⟩ := by
      simp only [configLoop, initState]
      exact htk
    rw [this]
    exact ⟨rfl, rfl⟩
  · rw [hloop]
    exact length_filterMap_of_isSome raisedOf cfgs hr
  · simp [processEntry, hloop]

/-- Witness for C6: two always-raising configurations — exceptions `11` and
`12` are both recorded, scratch is empty after the first configuration, and
the entry gets a `"failed"` marker with both exceptions while the
destination listing is unchanged. -/
theorem c6_witness :
    (configLoop [c6cfgA, c6cfgB]).exceptions.length = 2 ∧
    (configLoop (List.take 1 [c6cfgA, c6cfgB])).scratch = [] ∧
    processEntry [c6cfgA, c6cfgB] false c6entry ["d.mkv".toList] =
      .ok ([], ["d.mkv".toList],
        some ⟨c6entry.id, c6entry.title, failedTag, [11, 12], c6entry.raw⟩) := by
  have h := c6_exhaustion_writes_marker [c6cfgA, c6cfgB] false c6entry
    ["d.mkv".toList] (by decide)
  exact ⟨h.2.1, (h.1 1 (by decide)).1, h.2.2⟩

/-- C3: the enrichment stream never terminates early because one entry's
deep fetch raises — the stream completes, the raising entry gets a
`"failed"` marker carrying the caught exception and its previously known
raw metadata and is not yielded (the yielded list is exactly the enriched
good entries, which the raising entry is not), at most `N - 1` entries are
yielded, exactly `N - 1` when every other entry is good, and every
non-yielded entry has a marker. -/
theorem c3_enrichment_survives_fetch_failure (fetch : Entry → FetchResult)
    (entries : List Entry) (k : Nat) (hk : k < entries.length)
    (herr : ∃ err, fetch (entries.get ⟨k, hk⟩) = .raises err)
    (hdates : ∀ e ∈ entries, ∀ info, fetch e = .found info →
      (parseDateString info.upload_date).isSome = true) :
    ∃ ys ms,
      fetchGen fetch entries = .ok (ys, ms) ∧
      ys = (entries.filter (goodEntry fetch)).map (enrich fetch) ∧
      (∀ err, fetch (entries.get ⟨k, hk⟩) = .raises err →
        Marker.mk (entries.get ⟨k, hk⟩).id (entries.get ⟨k, hk⟩).title failedTag [err]
          (entries.get ⟨k, hk⟩).raw ∈ ms) ∧
      ys.length + 1 ≤ entries.length ∧
      ((∀ j, (hj : j < entries.length) → j ≠ k →
          goodEntry fetch (entries.get ⟨j, hj⟩) = true) →
        ys.length = entries.length - 1) ∧
      (∀ e ∈ entries, goodEntry fetch e = false → markerOf fetch e ∈ ms) := by
  obtain ⟨err0, herr0⟩ := herr
  have hbadk : goodEntry fetch (entries.get ⟨k, hk⟩) = false := by
    unfold goodEntry
    rw [herr0]
  have hbadk' := hbadk
  simp only [List.get_eq_getElem] at hbadk'
  refine ⟨_, _, fetchGen_eq fetch entries hdates, rfl, ?_, ?_, ?_, ?_⟩
  · intro err herr2
    have hmem : entries.get ⟨k, hk⟩ ∈ entries.filter (fun e => !goodEntry fetch e) :=
      List.mem_filter.mpr ⟨List.get_mem entries k hk, by simp [hbadk']⟩
    have hmap := List.mem_map_of_mem (markerOf fetch) hmem
    have hmk : markerOf fetch (entries.get ⟨k, hk⟩) =
        Marker.mk (entries.get ⟨k, hk⟩).id (entries.get ⟨k, hk⟩).title failedTag [err]
          (entries.get ⟨k, hk⟩).raw := by
      unfold markerOf
      rw [herr2]
    rwa [hmk] at hmap
  · have hlt : (entries.filter (goodEntry fetch)).length < entries.length :=
      List.length_filter_lt_length_iff_exists.mpr
        ⟨entries.get ⟨k, hk⟩, List.get_mem entries k hk, by simp [hbadk']⟩
    rw [List.length_map]
    omega
  · intro hall
    have hfe : entries.filter (goodEntry fetch) = entries.eraseIdx k :=
      filter_eq_eraseIdx (goodEntry fetch) entries k hk hbadk hall
    rw [List.length_map, hfe, List.length_eraseIdx]
    simp [hk]
  · intro e he hbad
    exact List.mem_map_of_mem (markerOf fetch)
      (List.mem_filter.mpr ⟨he, by simp [hbad]⟩)

/-- Witness for C3: three queued entries whose middle fetch raises
exception `7` — the stream completes, yields the two good entries, and the
middle entry gets the `"failed"` marker. -/
theorem c3_witness :
    ∃ ys ms,
      fetchGen c3fetch [c3e1, c3e2, c3e3] = .ok (ys, ms) ∧
      ys = ([c3e1, c3e2, c3e3].filter (goodEntry c3fetch)).map (enrich c3fetch) ∧
      (∀ err, c3fetch c3e2 = .raises err →
        Marker.mk c3e2.id c3e2.title failedTag [err] c3e2.raw ∈ ms) ∧
      ys.length + 1 ≤ 3 ∧
      ((∀ j, (hj : j < 3) → j ≠ 1 →
          goodEntry c3fetch ([c3e1, c3e2, c3e3].get ⟨j, hj⟩) = true) →
        ys.length = 2) ∧
      (∀ e ∈ [c3e1, c3e2, c3e3], goodEntry c3fetch e = false →
        markerOf c3fetch e ∈ ms) :=
  c3_enrichment_survives_fetch_failure c3fetch [c3e1, c3e2, c3e3] 1 (by decide)
    ⟨7, by decide⟩
    (by
      intro e _ info hfi
      simp only [c3fetch] at hfi
      split at hfi
      · exact absurd hfi (by simp)
      · cases hfi
        decide)

/-- C4 counterexample: the claim says an entry whose duration is absent
from the shallow listing gets an `invalid-duration` marker and is not
yielded.  On the code this is false: `durationLambda` (`main.py` line 174)
maps an absent duration to `0`, which passes the `is None or == -1` check
(`main.py` line 203), so such an entry is yielded and no marker is
written. -/
theorem c4_counterexample :
    durationLambda ⟨false, none⟩ = some 0 ∧
    fetchGen c4fetch [c4entry] = .ok ([enrich c4fetch c4entry], []) ∧
    (enrich c4fetch c4entry).duration = some 0 := by decide

/-- C4 amended: for every entry whose deep fetch succeeds and whose
duration is the explicit `None` or the `-1` sentinel, the enrichment stream
writes an `invalid-duration` marker with no exception attached, does not
yield the entry (the yielded list is exactly the enriched good entries,
which it is not), and continues — an absent duration is mapped to `0` at
triage and is not treated as invalid. -/
theorem c4_sentinel_invalid_duration (fetch : Entry → FetchResult) (entries : List Entry)
    (e : Entry) (hmem : e ∈ entries) (hfound : ∃ info, fetch e = .found info)
    (hdur : e.duration = none ∨ e.duration = some (-1))
    (hdates : ∀ x ∈ entries, ∀ info, fetch x = .found info →
      (parseDateString info.upload_date).isSome = true) :
    ∃ ys ms,
      fetchGen fetch entries = .ok (ys, ms) ∧
      goodEntry fetch e = false ∧
      Marker.mk e.id e.title invalidDurationTag [] e.raw ∈ ms ∧
      ys = (entries.filter (goodEntry fetch)).map (enrich fetch) := by
  obtain ⟨info, hinfo⟩ := hfound
  have hbad : goodEntry fetch e = false := by
    unfold goodEntry
    rw [hinfo]
    rcases hdur with h | h
    · simp [h]
    · simp [h]
  refine ⟨_, _, fetchGen_eq fetch entries hdates, hbad, ?_, rfl⟩
  have hmemf : e ∈ entries.filter (fun x => !goodEntry fetch x) := by
    refine List.mem_filter.mpr ⟨hmem, ?_⟩
    show (!goodEntry fetch e) = true
    rw [hbad]
    rfl
  have hmap := List.mem_map_of_mem (markerOf fetch) hmemf
  have hmk : markerOf fetch e = Marker.mk e.id e.title invalidDurationTag [] e.raw := by
    unfold markerOf
    rw [hinfo]
  rwa [hmk] at hmap

/-- Witness for the amended C4: a single entry with duration `None` and a
succeeding fetch — it is marked `invalid-duration` with no exception and
is not yielded. -/
theorem c4_witness :
    ∃ ys ms,
      fetchGen c4fetch [c4wEntry] = .ok (ys, ms) ∧
      goodEntry c4fetch c4wEntry = false ∧
      Marker.mk c4wEntry.id c4wEntry.title invalidDurationTag [] c4wEntry.raw ∈ ms ∧
      ys = ([c4wEntry].filter (goodEntry c4fetch)).map (enrich c4fetch) :=
  c4_sentinel_invalid_duration c4fetch [c4wEntry] c4wEntry (by decide)
    ⟨⟨some 9, "20230115".toList, 77⟩, by decide⟩ (by decide)
    (by
      intro x _ info hfi
      simp only [c4fetch] at hfi
      cases hfi
      decide)

end YTS
